import Mathlib

/-!
Shallow embedding of the parsec ECS core: the entity allocator
(`src/world/entity.rs`) and the planner's dispatch ordering
(`src/planner.rs`).

Modelling conventions:
* `i32` values are `Int` with explicit two's-complement wrapping
  (`wrap32`), which is release-mode Rust arithmetic; `debug_assert!`s
  are noted in comments (they are compiled out in release builds).
* `usize` / `u32` (including `pub type Index = u32`) are `Nat`, truncated
  explicitly (`% 2 ^ 64`, `% 2 ^ 32`) exactly at the source's cast sites.
* A Rust panic (explicit `panic!`/`expect`, or an out-of-bounds `Vec`
  index) is modelled as `none` of an `Option`; fallible operations
  returning `Result<_, WrongGeneration>` become `Except WrongGeneration _`
  inside that `Option`.
* The atomic types (`AtomicUsize`, `AtomicBitSet`) are modelled by their
  sequential contents (`Nat`, `Finset Nat`): every claim here is about
  a single-threaded sequence of operations, and each atomic operation in
  the source is a single linearizable read-modify-write.
-/


/-- Two's-complement wrap of an unbounded integer into the `i32` range
`[-2 ^ 31, 2 ^ 31)`. -/
def wrap32 (x : Int) : Int := (x + 2 ^ 31) % 2 ^ 32 - 2 ^ 31

/-- `pub struct Generation(pub(crate) i32);` -/
structure Generation where
  val : Int
deriving DecidableEq, Repr

/-- `Generation::is_alive`: `self.0 > 0`. -/
def Generation.is_alive (g : Generation) : Bool := decide (0 < g.val)

/-- `Generation::die`: `self.0 = -self.0;` (the debug build additionally
asserts `is_alive`; release-mode negation wraps at `i32::MIN`). -/
def Generation.die (g : Generation) : Generation := ⟨wrap32 (-g.val)⟩

/-- `Generation::raised`: `Generation(1 - self.0)` (the debug build
additionally asserts `!is_alive` and checks the subtraction for overflow;
release-mode subtraction wraps). -/
def Generation.raised (g : Generation) : Generation := ⟨wrap32 (1 - g.val)⟩

/-- `pub struct Entity(Index, Generation);` with accessors `id` and `gen`. -/
structure Entity where
  id : Nat
  gen : Generation
deriving DecidableEq, Repr

/-- `WrongGeneration { action, actual_gen, entity }` from `error.rs`. -/
structure WrongGeneration where
  action : String
  actual_gen : Generation
  entity : Entity
deriving DecidableEq, Repr

instance {ε α : Type} [DecidableEq ε] [DecidableEq α] : DecidableEq (Except ε α) :=
  fun x y =>
    match x, y with
    | .ok a, .ok b => decidable_of_iff (a = b) (by simp)
    | .error a, .error b => decidable_of_iff (a = b) (by simp)
    | .ok _, .error _ => isFalse (by simp)
    | .error _, .ok _ => isFalse (by simp)

/-- `struct EntityCache { cache: Vec<Index>, len: AtomicUsize }`. -/
structure EntityCache where
  cache : List Nat
  len : Nat
deriving DecidableEq, Repr

/-- `EntityCache::pop_atomic`: CAS-decrements `len` and reads
`cache[len - 1]`. In every state the allocator produces, `len ≤ cache.length`
holds, so the index is in bounds; `getD` supplies the (unreachable)
out-of-bounds default. -/
def EntityCache.pop_atomic (c : EntityCache) : Option (Nat × EntityCache) :=
  if c.len = 0 then none
  else some (c.cache.getD (c.len - 1) 0, { c with len := c.len - 1 })

/-- `EntityCache::maintain`: `self.cache.truncate(self.len)`. -/
def EntityCache.maintain (c : EntityCache) : EntityCache :=
  { c with cache := c.cache.take c.len }

/-- `Extend<Index> for EntityCache`: maintain, append, store new length. -/
def EntityCache.extend (c : EntityCache) (ids : List Nat) : EntityCache :=
  let v := c.maintain.cache ++ ids
  { cache := v, len := v.length }

/-- The live portion of the cache: `pop_atomic` only ever serves elements
at positions below `len`, so an index counts as cached iff it occurs there. -/
def EntityCache.mem (c : EntityCache) (i : Nat) : Prop := i ∈ c.cache.take c.len

instance (c : EntityCache) (i : Nat) : Decidable (c.mem i) := by
  unfold EntityCache.mem; infer_instance

/-- `struct Allocator { generations, alive, raised, killed, cache, max_id }`.
The bitsets are modelled as finite sets of indices. -/
structure Allocator where
  generations : List Generation
  alive : Finset Nat
  raised : Finset Nat
  killed : Finset Nat
  cache : EntityCache
  max_id : Nat
deriving DecidableEq

/-- `#[derive(Default)]` for `Allocator`: everything empty, `max_id = 0`. -/
def Allocator.default : Allocator := ⟨[], ∅, ∅, ∅, ⟨[], 0⟩, 0⟩

/-- `Allocator::is_alive`: compare `e.gen()` with the stored generation at
`e.id`, promoted through `raised` when the stored one is dead and the index
is in the `raised` set, and defaulting to `Generation(1)` when the
generations vector has no entry. -/
def Allocator.is_alive (a : Allocator) (e : Entity) : Bool :=
  decide (e.gen = match a.generations[e.id]? with
    | some g => if ¬g.is_alive ∧ e.id ∈ a.raised then g.raised else g
    | none => (⟨1⟩ : Generation))

/-- `Allocator::entity(id)`: the current-or-projected generation paired with
the index; makes no liveness claim. -/
def Allocator.entity (a : Allocator) (id : Nat) : Entity :=
  ⟨id, match a.generations[id]? with
    | some g => if ¬g.is_alive ∧ id ∈ a.raised then g.raised else g
    | none => (⟨1⟩ : Generation)⟩

/-- `Allocator::del_err`: builds `WrongGeneration` from
`self.generations[e.id() as usize]` — a direct `Vec` index, which panics
(`none`) when `e.id` has no entry. -/
def Allocator.del_err (a : Allocator) (e : Entity) : Option WrongGeneration :=
  a.generations[e.id]?.map fun g => ⟨"delete", g, e⟩

/-- `Allocator::kill_atomic`: liveness check, then `killed.add_atomic(e.id())`. -/
def Allocator.kill_atomic (a : Allocator) (e : Entity) :
    Option (Except WrongGeneration Allocator) :=
  if ¬a.is_alive e then (a.del_err e).map .error
  else some (.ok { a with killed := insert e.id a.killed })

/-- The `while self.generations.len() <= id { push(Generation(0)) }` loops:
pad the generations vector with `Generation(0)` up to length `n`. -/
def padTo (g : List Generation) (n : Nat) : List Generation :=
  g ++ List.replicate (n - g.length) ⟨0⟩

/-- The per-entity loop body of `Allocator::kill`. On a liveness failure the
mutations made for the earlier entities of the slice are kept (the source
returns early out of a `&mut self` method), so the error carries the state
at the failure point. -/
def Allocator.killLoop :
    Allocator → List Entity → Option (Except (WrongGeneration × Allocator) Allocator)
  | a, [] => some (.ok a)
  | a, e :: rest =>
    if ¬a.is_alive e then (a.del_err e).map fun w => .error (w, a)
    else
      let id := e.id
      let g0 := padTo a.generations (id + 1)
      let g1 := if id ∈ a.raised then g0.set id ((g0.getD id ⟨0⟩).raised) else g0
      let g2 := g1.set id ((g1.getD id ⟨0⟩).die)
      Allocator.killLoop
        { a with alive := a.alive.erase id, raised := a.raised.erase id,
                 generations := g2 } rest

/-- `Allocator::kill`: run the loop, then (only on success) extend the free
cache with all the deleted indices. -/
def Allocator.kill (a : Allocator) (delete : List Entity) :
    Option (Except (WrongGeneration × Allocator) Allocator) :=
  match a.killLoop delete with
  | none => none
  | some (.error wa) => some (.error wa)
  | some (.ok b) =>
      some (.ok { b with cache := b.cache.extend (delete.map Entity.id) })

/-- `Allocator::allocate`: pop the cache, else take `max_id` (panicking when
it casts to `u32::MAX`) and bump it; pad the generations vector, mark alive,
raise the slot unconditionally, and return the stored generation. -/
def Allocator.allocate (a : Allocator) : Option (Entity × Allocator) :=
  let idState : Option (Nat × Allocator) :=
    match a.cache.pop_atomic with
    | some (id, c) => some (id, { a with cache := c })
    | none =>
      if a.max_id % 2 ^ 32 = 2 ^ 32 - 1 then none
      else some (a.max_id % 2 ^ 32, { a with max_id := a.max_id + 1 })
  match idState with
  | none => none
  | some (id, a1) =>
    let g1 := (padTo a1.generations (id + 1)).set id
      (((padTo a1.generations (id + 1)).getD id ⟨0⟩).raised)
    some (⟨id, g1.getD id ⟨0⟩⟩,
      { a1 with generations := g1, alive := insert id a1.alive })

/-- `Allocator::allocate_atomic`: pop the cache atomically, else
`atomic_add1(&self.max_id)` — which fails (`expect` panics) only at
`usize::MAX` — and cast the old value `as Index` (truncation mod `2 ^ 32`);
add the index to `raised` and project the generation without touching the
generations vector. -/
def Allocator.allocate_atomic (a : Allocator) : Option (Entity × Allocator) :=
  match a.cache.pop_atomic with
  | some (id, c) =>
    let gen := match a.generations[id]? with
      | some g => if g.is_alive then g else g.raised
      | none => (⟨1⟩ : Generation)
    some (⟨id, gen⟩, { a with cache := c, raised := insert id a.raised })
  | none =>
    if a.max_id = 2 ^ 64 - 1 then none
    else
      let id := a.max_id % 2 ^ 32
      let gen := match a.generations[id]? with
        | some g => if g.is_alive then g else g.raised
        | none => (⟨1⟩ : Generation)
      some (⟨id, gen⟩, { a with raised := insert id a.raised, max_id := a.max_id + 1 })

/-- Ascending enumeration of a finite index set — the iteration order of a
`hibitset` bitset. -/
def ascList (s : Finset Nat) : List Nat :=
  (List.range (s.sup id + 1)).filter (fun i => decide (i ∈ s))

/-- One step of the `raised` loop of `Allocator::merge`: pad the generations
vector, raise the slot and mark it alive. -/
def raisedStep (a : Allocator) (i : Nat) : Allocator :=
  let g0 := padTo a.generations (i + 1)
  { a with generations := g0.set i ((g0.getD i ⟨0⟩).raised),
           alive := insert i a.alive }

/-- One step of the `killed` loop of `Allocator::merge`: removes the index
from `alive`, records `Entity(i, generations[i])` and kills the slot. The
source indexes `generations[i]` directly, so a missing entry is a panic. -/
def killedStep (s : List Entity × Allocator) (i : Nat) :
    Option (List Entity × Allocator) :=
  match s.2.generations[i]? with
  | none => none
  | some g =>
    some (s.1 ++ [⟨i, g⟩],
      { s.2 with alive := s.2.alive.erase i,
                 generations := s.2.generations.set i g.die })

/-- `Allocator::merge`: promote every `raised` index (the bitset iterates in
ascending index order), clear `raised`, process every `killed` index, clear
`killed`, then extend the cache with the deleted indices. -/
def Allocator.merge (a : Allocator) : Option (List Entity × Allocator) :=
  let a1 := (ascList a.raised).foldl raisedStep a
  let a2 := { a1 with raised := (∅ : Finset Nat) }
  match (ascList a2.killed).foldlM killedStep ([], a2) with
  | none => none
  | some (deleted, a3) =>
    some (deleted, { a3 with killed := (∅ : Finset Nat),
                             cache := a3.cache.extend (deleted.map Entity.id) })

/-- `pub struct EntitiesRes { alloc: Allocator }`. -/
structure EntitiesRes where
  alloc : Allocator
deriving DecidableEq

/-- `EntitiesRes::entity(id)`: delegates to `Allocator::entity`. -/
def EntitiesRes.entity (r : EntitiesRes) (id : Nat) : Entity :=
  r.alloc.entity id

/-- `EntitiesRes::is_alive`: delegates to `Allocator::is_alive`. -/
def EntitiesRes.is_alive (r : EntitiesRes) (e : Entity) : Bool :=
  r.alloc.is_alive e

/-- `EntitiesRes::delete`: delegates to `Allocator::kill_atomic`. -/
def EntitiesRes.delete (r : EntitiesRes) (e : Entity) :
    Option (Except WrongGeneration EntitiesRes) :=
  (r.alloc.kill_atomic e).map fun x => x.map EntitiesRes.mk

/-- States reachable from the fresh allocator through `allocate`,
`allocate_atomic`, a `kill` call that returned Ok, a `kill_atomic` call that
returned Ok, and a `merge` call that completed. Panics and error returns
contribute no successor state. -/
inductive ReachableOk : Allocator → Prop where
  | init : ReachableOk Allocator.default
  | alloc {a : Allocator} {e : Entity} {b : Allocator} :
      ReachableOk a → a.allocate = some (e, b) → ReachableOk b
  | allocAtomic {a : Allocator} {e : Entity} {b : Allocator} :
      ReachableOk a → a.allocate_atomic = some (e, b) → ReachableOk b
  | killStep {a : Allocator} {es : List Entity} {b : Allocator} :
      ReachableOk a → a.kill es = some (.ok b) → ReachableOk b
  | killAtomicStep {a : Allocator} {e : Entity} {b : Allocator} :
      ReachableOk a → a.kill_atomic e = some (.ok b) → ReachableOk b
  | mergeStep {a : Allocator} {d : List Entity} {b : Allocator} :
      ReachableOk a → a.merge = some (d, b) → ReachableOk b

/-- The cache length stays within the backing vector, and every in-range
issued index is covered by `alive`, `raised` or the live cache. -/
def allocInv (s : Allocator) : Prop :=
  s.cache.len ≤ s.cache.cache.length ∧
  ∀ i, i < s.max_id → i < 2 ^ 32 →
    i ∈ s.alive ∨ i ∈ s.raised ∨ s.cache.mem i

/-- `pub struct SystemInfo<C> { name, priority, object }` (src/planner.rs);
`pub type Priority = i32` is an `Int` ranging over the `i32` values. -/
structure SystemInfo (α : Type) where
  name : String
  priority : Int
  object : α
deriving DecidableEq

/-- The key of `self.systems.sort_by_key(|sinfo| -sinfo.priority)` in
`Planner::dispatch`; the `i32` negation wraps at `i32::MIN`. -/
def sortKey {α : Type} (s : SystemInfo α) : Int := wrap32 (-s.priority)

/-- Stable insertion into a list already sorted by ascending `sortKey`: the
inserted element (registered earlier than the rest) goes before every element
of equal key. -/
def insertByKey {α : Type} (x : SystemInfo α) :
    List (SystemInfo α) → List (SystemInfo α)
  | [] => [x]
  | y :: ys => if sortKey y < sortKey x then y :: insertByKey x ys
               else x :: y :: ys

/-- `Planner::dispatch` sorts the registered systems with Rust's stable
`sort_by_key(|sinfo| -sinfo.priority)` and drains the result in order,
spawning each system and blocking on its fetch pulse before spawning the
next. For a total preorder key a stable sort's output is the unique
sorted-and-stable permutation, so this stable insertion sort computes
exactly the source's spawn/fetch order. -/
def dispatchOrder {α : Type} : List (SystemInfo α) → List (SystemInfo α)
  | [] => []
  | x :: xs => insertByKey x (dispatchOrder xs)

/-! ### Claim theorems -/

/-- C1: on a fresh allocator the first two `allocate` calls return
`Entity(0, Generation(1))` and `Entity(1, Generation(1))` leaving
`max_id = 2`; `kill(&[Entity(0, Gen 1)])` then returns Ok, makes the entity
dead, puts index 0 into the free cache, and the next `allocate` returns
`Entity(0, Generation(2))`. -/
theorem c1_fresh_allocate_kill_cycle :
    Allocator.default.allocate =
      some (⟨0, ⟨1⟩⟩, ⟨[⟨1⟩], {0}, ∅, ∅, ⟨[], 0⟩, 1⟩) ∧
    (⟨[⟨1⟩], {0}, ∅, ∅, ⟨[], 0⟩, 1⟩ : Allocator).allocate =
      some (⟨1, ⟨1⟩⟩, ⟨[⟨1⟩, ⟨1⟩], {1, 0}, ∅, ∅, ⟨[], 0⟩, 2⟩) ∧
    (⟨[⟨1⟩, ⟨1⟩], {1, 0}, ∅, ∅, ⟨[], 0⟩, 2⟩ : Allocator).max_id = 2 ∧
    (⟨[⟨1⟩, ⟨1⟩], {1, 0}, ∅, ∅, ⟨[], 0⟩, 2⟩ : Allocator).kill [⟨0, ⟨1⟩⟩] =
      some (.ok (⟨[⟨-1⟩, ⟨1⟩], {1}, ∅, ∅, ⟨[0], 1⟩, 2⟩ : Allocator)) ∧
    (⟨[⟨-1⟩, ⟨1⟩], {1}, ∅, ∅, ⟨[0], 1⟩, 2⟩ : Allocator).is_alive ⟨0, ⟨1⟩⟩ = false ∧
    (⟨[⟨-1⟩, ⟨1⟩], {1}, ∅, ∅, ⟨[0], 1⟩, 2⟩ : Allocator).cache.mem 0 ∧
    (⟨[⟨-1⟩, ⟨1⟩], {1}, ∅, ∅, ⟨[0], 1⟩, 2⟩ : Allocator).allocate =
      some (⟨0, ⟨2⟩⟩, ⟨[⟨2⟩, ⟨1⟩], {0, 1}, ∅, ∅, ⟨[0], 0⟩, 2⟩) :=
  ⟨rfl, rfl, rfl, rfl, rfl, by decide, rfl⟩

/-- C2 counterexample: on a fresh allocator, `Entity(0, Generation(2))` is
not alive, yet neither `kill_atomic` nor `kill` returns the
`WrongGeneration` error — `del_err` indexes the empty generations vector
out of bounds, i.e. the error path panics. -/
theorem c2_error_path_panics :
    Allocator.default.is_alive ⟨0, ⟨2⟩⟩ = false ∧
    Allocator.default.kill_atomic ⟨0, ⟨2⟩⟩ = none ∧
    Allocator.default.kill [⟨0, ⟨2⟩⟩] = none :=
  ⟨rfl, rfl, rfl⟩

/-- C3 (code bug), evaluated at the failing input: fresh allocator,
`allocate` returns `e = Entity(0, Gen 1)`; `kill_atomic(e)` then `kill(&[e])`
both succeed, but the stale `killed` entry makes the following `merge` call
`die()` on the already-dead generation `-1` (violating `die`'s own
`debug_assert!(self.is_alive())`), negating it back to `1` — so
`is_alive(e)` is `true` again even though `kill(&[e])` succeeded. -/
theorem c3_killed_entity_resurrected :
    Allocator.default.allocate =
      some (⟨0, ⟨1⟩⟩, ⟨[⟨1⟩], {0}, ∅, ∅, ⟨[], 0⟩, 1⟩) ∧
    (⟨[⟨1⟩], {0}, ∅, ∅, ⟨[], 0⟩, 1⟩ : Allocator).kill_atomic ⟨0, ⟨1⟩⟩ =
      some (.ok (⟨[⟨1⟩], {0}, ∅, {0}, ⟨[], 0⟩, 1⟩ : Allocator)) ∧
    (⟨[⟨1⟩], {0}, ∅, {0}, ⟨[], 0⟩, 1⟩ : Allocator).kill [⟨0, ⟨1⟩⟩] =
      some (.ok (⟨[⟨-1⟩], ∅, ∅, {0}, ⟨[0], 1⟩, 1⟩ : Allocator)) ∧
    (⟨[⟨-1⟩], ∅, ∅, {0}, ⟨[0], 1⟩, 1⟩ : Allocator).merge =
      some ([⟨0, ⟨-1⟩⟩], ⟨[⟨1⟩], ∅, ∅, ∅, ⟨[0, 0], 2⟩, 1⟩) ∧
    (⟨[⟨1⟩], ∅, ∅, ∅, ⟨[0, 0], 2⟩, 1⟩ : Allocator).is_alive ⟨0, ⟨1⟩⟩ = true :=
  ⟨rfl, rfl, rfl, rfl, rfl⟩

/-- C5 counterexample: at the dead generation `i32::MIN = -2^31` the
subtraction `1 - g` overflows, so `raised()` returns the (still dead)
generation `-(2^31 - 1)` instead of the positive `1 - g`. -/
theorem c5_raised_overflows_at_min :
    (Generation.mk (-(2 ^ 31))).raised = ⟨-(2 ^ 31 - 1)⟩ ∧
    (Generation.mk (-(2 ^ 31))).raised ≠ ⟨1 - (-(2 ^ 31))⟩ ∧
    ((Generation.mk (-(2 ^ 31))).raised).is_alive = false := by
  decide

/-- C5 amended: `die()` on an alive `i32` generation `g` (so `0 < g < 2^31`)
returns `-g`, and `raised()` on a dead generation `g` with `1 - g` still
representable in `i32` (so `-(2^31 - 1) < g ≤ 0`) returns `1 - g`, which is
positive and strictly greater in magnitude than `g`. -/
theorem c5_die_neg_raised_succ (g : Generation) :
    (0 < g.val → g.val < 2 ^ 31 → g.die = ⟨-g.val⟩) ∧
    (-(2 ^ 31 - 1) < g.val → g.val ≤ 0 →
      g.raised = ⟨1 - g.val⟩ ∧ 0 < (1 - g.val) ∧ |g.val| < |1 - g.val|) := by
  have hw : ∀ x : Int, -(2 ^ 31) ≤ x → x < 2 ^ 31 → wrap32 x = x := by
    intro x h1 h2
    have h3 : (0 : Int) ≤ x + 2 ^ 31 := by omega
    have h4 : x + 2 ^ 31 < 2 ^ 32 := by omega
    unfold wrap32
    rw [Int.emod_eq_of_lt h3 h4]
    omega
  constructor
  · intro h1 h2
    unfold Generation.die
    rw [hw (-g.val) (by omega) (by omega)]
  · intro h1 h2
    refine ⟨?_, by omega, by rw [abs_of_nonpos h2, abs_of_pos (by omega : (0:Int) < 1 - g.val)]; omega⟩
    unfold Generation.raised
    rw [hw (1 - g.val) (by omega) (by omega)]

/-- C5 witness: the amended theorem applied at the dead generation `-3`. -/
theorem c5_die_neg_raised_succ_witness :
    (Generation.mk (-3)).raised = ⟨1 - (-3)⟩ ∧ (0:Int) < 1 - (-3) ∧
      |(-3 : Int)| < |1 - (-3 : Int)| :=
  (c5_die_neg_raised_succ ⟨-3⟩).2 (by decide) (by decide)

/-- C7 (code bug), evaluated at the failing input: with an empty cache and
`max_id = 2^32` (the state after the 32-bit index space has been issued by
`allocate_atomic`), `allocate_atomic` does not panic — `atomic_add1` only
fails at `usize::MAX` — and the `as Nat` cast truncates `2^32` to `0`, so
the already-issued index `0` is silently returned again. -/
theorem c7_allocate_atomic_truncates :
    (⟨[], ∅, ∅, ∅, ⟨[], 0⟩, 2 ^ 32⟩ : Allocator).allocate_atomic =
      some (⟨0, ⟨1⟩⟩, ⟨[], ∅, {0}, ∅, ⟨[], 0⟩, 2 ^ 32 + 1⟩) :=
  rfl

/-- C6 counterexample: from the fresh allocator, allocate twice, then
`kill(&[Entity(0, Gen 1), Entity(1, Gen 2)])`. The second entity is stale,
so `kill` returns `WrongGeneration` — but index 0 has already been removed
from `alive` and is never pushed to the cache, so in the resulting state
`0 < max_id` yet `0` is in neither `alive`, `raised` nor the free cache. -/
theorem c6_failed_kill_strands_index :
    Allocator.default.allocate =
      some (⟨0, ⟨1⟩⟩, ⟨[⟨1⟩], {0}, ∅, ∅, ⟨[], 0⟩, 1⟩) ∧
    (⟨[⟨1⟩], {0}, ∅, ∅, ⟨[], 0⟩, 1⟩ : Allocator).allocate =
      some (⟨1, ⟨1⟩⟩, ⟨[⟨1⟩, ⟨1⟩], {1, 0}, ∅, ∅, ⟨[], 0⟩, 2⟩) ∧
    (⟨[⟨1⟩, ⟨1⟩], {1, 0}, ∅, ∅, ⟨[], 0⟩, 2⟩ : Allocator).kill
        [⟨0, ⟨1⟩⟩, ⟨1, ⟨2⟩⟩] =
      some (.error (⟨"delete", ⟨1⟩, ⟨1, ⟨2⟩⟩⟩,
        (⟨[⟨-1⟩, ⟨1⟩], {1}, ∅, ∅, ⟨[], 0⟩, 2⟩ : Allocator))) ∧
    (0 : Nat) < (⟨[⟨-1⟩, ⟨1⟩], {1}, ∅, ∅, ⟨[], 0⟩, 2⟩ : Allocator).max_id ∧
    (0 : Nat) ∉ (⟨[⟨-1⟩, ⟨1⟩], {1}, ∅, ∅, ⟨[], 0⟩, 2⟩ : Allocator).alive ∧
    (0 : Nat) ∉ (⟨[⟨-1⟩, ⟨1⟩], {1}, ∅, ∅, ⟨[], 0⟩, 2⟩ : Allocator).raised ∧
    ¬(⟨[⟨-1⟩, ⟨1⟩], {1}, ∅, ∅, ⟨[], 0⟩, 2⟩ : Allocator).cache.mem 0 :=
  ⟨rfl, rfl, rfl, by decide, by decide, by decide, by decide⟩

theorem mem_ascList {s : Finset Nat} {i : Nat} : i ∈ ascList s ↔ i ∈ s := by
  unfold ascList
  simp only [List.mem_filter, List.mem_range, decide_eq_true_eq]
  exact ⟨fun h => h.2, fun h => ⟨Nat.lt_succ_of_le (Finset.le_sup (f := id) h), h⟩⟩

theorem killedFold_none {l : List Nat} {i : Nat} (hi : i ∈ l) :
    ∀ s : List Entity × Allocator, s.2.generations[i]? = none →
      l.foldlM killedStep s = none := by
  induction l with
  | nil => cases hi
  | cons j rest ih =>
    intro s hs
    rcases List.mem_cons.mp hi with h | h
    · subst h
      have hstep : killedStep s i = none := by simp [killedStep, hs]
      rw [List.foldlM_cons, hstep]
      rfl
    · cases hj : s.2.generations[j]? with
      | none =>
        have hstep : killedStep s j = none := by simp [killedStep, hj]
        rw [List.foldlM_cons, hstep]
        rfl
      | some g =>
        have hstep : killedStep s j = some (s.1 ++ [(⟨j, g⟩ : Entity)],
            { s.2 with alive := s.2.alive.erase j,
                       generations := s.2.generations.set j g.die }) := by
          simp [killedStep, hj]
        have hs2 : ((s.1 ++ [(⟨j, g⟩ : Entity)],
            { s.2 with alive := s.2.alive.erase j,
                       generations := s.2.generations.set j g.die }) :
              List Entity × Allocator).2.generations[i]? = none := by
          rw [List.getElem?_eq_none_iff] at hs ⊢
          simpa [List.length_set] using hs
        rw [List.foldlM_cons, hstep]
        simpa using ih h _ hs2

/-- C8: `merge()` on an allocator whose `raised` and `killed` sets are empty
returns an empty deleted list and leaves the observable state — generations,
alive set, live cache contents, `max_id` — unchanged (the only internal
effect is `cache.maintain`, which truncates the dead tail of the cache
vector without touching the live portion). -/
theorem c8_merge_empty_noop (s : Allocator) (h1 : s.raised = ∅)
    (h2 : s.killed = ∅) :
    s.merge = some ([], { s with cache := s.cache.extend [] }) ∧
    (s.cache.extend []).cache.take (s.cache.extend []).len =
      s.cache.cache.take s.cache.len ∧
    ({ s with cache := s.cache.extend [] } : Allocator).generations =
      s.generations ∧
    ({ s with cache := s.cache.extend [] } : Allocator).alive = s.alive ∧
    ({ s with cache := s.cache.extend [] } : Allocator).max_id = s.max_id := by
  obtain ⟨g, al, r, k, c, m⟩ := s
  dsimp only at h1 h2
  subst h1; subst h2
  refine ⟨rfl, ?_, rfl, rfl, rfl⟩
  simp [EntityCache.extend, EntityCache.maintain, List.take_length]

/-- C8 witness: the theorem applied to the fresh allocator. -/
theorem c8_merge_empty_noop_witness :
    Allocator.default.merge =
      some ([], { Allocator.default with
                    cache := Allocator.default.cache.extend [] }) :=
  (c8_merge_empty_noop Allocator.default rfl rfl).1

/-- C10: for any index `i` with no entry in the generations vector (and no
pending `raised` promotion), `EntitiesRes::entity(i)` hands out
`Entity(i, Generation(1))`, `is_alive` reports it as alive even though it was
never allocated, `delete` (= `kill_atomic`) accepts it and adds `i` to
`killed` — and the next `merge()` then indexes `generations[i]` out of
bounds (a panic) instead of completing normally. -/
theorem c10_phantom_index_breaks_merge (a : Allocator) (i : Nat)
    (h1 : a.generations[i]? = none) (h2 : a.raised = ∅) :
    (EntitiesRes.mk a).entity i = ⟨i, ⟨1⟩⟩ ∧
    (EntitiesRes.mk a).is_alive ⟨i, ⟨1⟩⟩ = true ∧
    (EntitiesRes.mk a).delete ⟨i, ⟨1⟩⟩ =
      some (.ok ⟨{ a with killed := insert i a.killed }⟩) ∧
    ({ a with killed := insert i a.killed } : Allocator).merge = none := by
  have halive : a.is_alive ⟨i, ⟨1⟩⟩ = true := by
    simp [Allocator.is_alive, h1]
  refine ⟨?_, ?_, ?_, ?_⟩
  · simp [EntitiesRes.entity, Allocator.entity, h1]
  · simpa [EntitiesRes.is_alive] using halive
  · simp [EntitiesRes.delete, Allocator.kill_atomic, halive, Except.map]
  · have hmem : i ∈ ascList (insert i a.killed) :=
      mem_ascList.mpr (Finset.mem_insert_self i _)
    have hfold := killedFold_none hmem
      (([], { a with killed := insert i a.killed,
                     raised := (∅ : Finset Nat) }) : List Entity × Allocator) h1
    simp only [Allocator.merge, h2]
    rw [show ascList (∅ : Finset Nat) = [] from rfl, List.foldl_nil]
    rw [hfold]

/-- C10 witness: the fresh allocator and index 5. -/
theorem c10_phantom_index_breaks_merge_witness :
    (EntitiesRes.mk Allocator.default).entity 5 = ⟨5, ⟨1⟩⟩ ∧
    (EntitiesRes.mk Allocator.default).is_alive ⟨5, ⟨1⟩⟩ = true ∧
    (EntitiesRes.mk Allocator.default).delete ⟨5, ⟨1⟩⟩ =
      some (.ok ⟨{ Allocator.default with
                     killed := insert 5 Allocator.default.killed }⟩) ∧
    ({ Allocator.default with
         killed := insert 5 Allocator.default.killed } : Allocator).merge = none :=
  c10_phantom_index_breaks_merge Allocator.default 5 rfl rfl

/-- C2 amended: provided the generations vector has an entry at `e.id`, both
`kill(&[e])` and `kill_atomic(e)` return
`WrongGeneration { action: "delete", actual_gen: the stored generation,
entity: e }` whenever `e` is not alive, and return Ok when it is alive; with
no entry at `e.id` (and `e.gen ≠ Generation(1)`) the error path panics on an
out-of-bounds index instead. -/
theorem c2_wrong_generation (a : Allocator) (e : Entity)
    (h : e.id < a.generations.length) :
    (a.is_alive e = false →
      a.kill_atomic e =
        some (.error ⟨"delete", a.generations.getD e.id ⟨0⟩, e⟩) ∧
      a.kill [e] =
        some (.error (⟨"delete", a.generations.getD e.id ⟨0⟩, e⟩, a))) ∧
    (a.is_alive e = true →
      a.kill_atomic e = some (.ok { a with killed := insert e.id a.killed }) ∧
      a.kill [e] = some (.ok
        (let g1 := if e.id ∈ a.raised
          then (padTo a.generations (e.id + 1)).set e.id
            (((padTo a.generations (e.id + 1)).getD e.id ⟨0⟩).raised)
          else padTo a.generations (e.id + 1)
        { a with alive := a.alive.erase e.id, raised := a.raised.erase e.id,
                 generations := g1.set e.id ((g1.getD e.id ⟨0⟩).die),
                 cache := a.cache.extend [e.id] }))) := by
  obtain ⟨g, hg⟩ : ∃ g, a.generations[e.id]? = some g :=
    ⟨_, List.getElem?_eq_getElem h⟩
  have hgd : a.generations.getD e.id ⟨0⟩ = g := by
    rw [List.getD_eq_getElem?_getD, hg]
    rfl
  rw [hgd]
  constructor
  · intro hdead
    constructor
    · unfold Allocator.kill_atomic
      rw [if_pos (by simp [hdead])]
      simp [Allocator.del_err, hg]
    · have hloop : a.killLoop [e] = some (.error (⟨"delete", g, e⟩, a)) := by
        unfold Allocator.killLoop
        rw [if_pos (by simp [hdead])]
        simp [Allocator.del_err, hg]
      unfold Allocator.kill
      rw [hloop]
  · intro halive
    constructor
    · unfold Allocator.kill_atomic
      rw [if_neg (by simp [halive])]
    · have hloop : a.killLoop [e] = some (.ok
          (let g1 := if e.id ∈ a.raised
            then (padTo a.generations (e.id + 1)).set e.id
              (((padTo a.generations (e.id + 1)).getD e.id ⟨0⟩).raised)
            else padTo a.generations (e.id + 1)
          { a with alive := a.alive.erase e.id, raised := a.raised.erase e.id,
                   generations := g1.set e.id ((g1.getD e.id ⟨0⟩).die) })) := by
        unfold Allocator.killLoop
        rw [if_neg (by simp [halive])]
        rfl
      unfold Allocator.kill
      rw [hloop]
      rfl

/-- C2 witness: the amended theorem at an allocator with one live slot and
the stale entity `Entity(0, Generation(2))`. -/
theorem c2_wrong_generation_witness :
    (⟨[⟨1⟩], {0}, ∅, ∅, ⟨[], 0⟩, 1⟩ : Allocator).kill_atomic ⟨0, ⟨2⟩⟩ =
      some (.error ⟨"delete", ⟨1⟩, ⟨0, ⟨2⟩⟩⟩) ∧
    (⟨[⟨1⟩], {0}, ∅, ∅, ⟨[], 0⟩, 1⟩ : Allocator).kill [⟨0, ⟨2⟩⟩] =
      some (.error (⟨"delete", ⟨1⟩, ⟨0, ⟨2⟩⟩⟩,
        (⟨[⟨1⟩], {0}, ∅, ∅, ⟨[], 0⟩, 1⟩ : Allocator))) :=
  (c2_wrong_generation (⟨[⟨1⟩], {0}, ∅, ∅, ⟨[], 0⟩, 1⟩ : Allocator) ⟨0, ⟨2⟩⟩
    (by decide)).1 (by decide)

theorem getElem?_eq_some_getD {l : List Generation} {i : Nat} (h : i < l.length)
    (d : Generation) : l[i]? = some (l.getD i d) := by
  rw [List.getElem?_eq_getElem h, List.getD_eq_getElem?_getD,
    List.getElem?_eq_getElem h]
  rfl

theorem filter_range_eq_single (i n : Nat) (h : i < n) :
    (List.range n).filter (fun j => decide (j = i)) = [i] := by
  induction n with
  | zero => omega
  | succ m ih =>
    rw [List.range_succ, List.filter_append]
    by_cases hm : i < m
    · rw [ih hm]
      have hne : m ≠ i := by omega
      simp [hne]
    · have : i = m := by omega
      subst this
      have hnil : (List.range i).filter (fun j => decide (j = i)) = [] := by
        apply List.filter_eq_nil_iff.mpr
        intro j hj
        simp only [decide_eq_true_eq]
        have := List.mem_range.mp hj
        omega
      simp [hnil]

theorem ascList_singleton (i : Nat) : ascList {i} = [i] := by
  unfold ascList
  rw [Finset.sup_singleton]
  rw [show (fun j => decide (j ∈ ({i} : Finset Nat))) = fun j => decide (j = i) from
    funext fun j => by simp [Finset.mem_singleton]]
  exact filter_range_eq_single i (i + 1) (Nat.lt_succ_self i)

theorem allocate_gen_at {a : Allocator} {e : Entity} {b : Allocator}
    (h : a.allocate = some (e, b)) :
    b.generations[e.id]? = some e.gen ∧ b.raised = a.raised ∧
    b.killed = a.killed := by
  unfold Allocator.allocate at h
  cases hpop : a.cache.pop_atomic with
  | some p =>
    obtain ⟨id, c⟩ := p
    rw [hpop] at h
    simp only [Option.some.injEq, Prod.mk.injEq] at h
    obtain ⟨he, hb⟩ := h
    subst hb
    subst he
    refine ⟨?_, rfl, rfl⟩
    have hlen : id < ((padTo a.generations (id + 1)).set id
        (((padTo a.generations (id + 1)).getD id ⟨0⟩).raised)).length := by
      rw [List.length_set]
      unfold padTo
      rw [List.length_append, List.length_replicate]
      omega
    exact getElem?_eq_some_getD hlen ⟨0⟩
  | none =>
    rw [hpop] at h
    by_cases hmax : a.max_id % 2 ^ 32 = 2 ^ 32 - 1
    · rw [if_pos hmax] at h
      cases h
    · rw [if_neg hmax] at h
      simp only [Option.some.injEq, Prod.mk.injEq] at h
      obtain ⟨he, hb⟩ := h
      subst hb
      subst he
      refine ⟨?_, rfl, rfl⟩
      have hlen : a.max_id % 2 ^ 32 <
          ((padTo a.generations (a.max_id % 2 ^ 32 + 1)).set (a.max_id % 2 ^ 32)
            (((padTo a.generations (a.max_id % 2 ^ 32 + 1)).getD
              (a.max_id % 2 ^ 32) ⟨0⟩).raised)).length := by
        rw [List.length_set]
        unfold padTo
        rw [List.length_append, List.length_replicate]
        omega
      exact getElem?_eq_some_getD hlen ⟨0⟩

theorem wrap32_eq_self {x : Int} (h1 : -(2 ^ 31) ≤ x) (h2 : x < 2 ^ 31) :
    wrap32 x = x := by
  unfold wrap32
  rw [Int.emod_eq_of_lt (by omega) (by omega)]
  omega

theorem merge_single_killed (s : Allocator) (i : Nat) (g : Generation)
    (hr : s.raised = ∅) (hk : s.killed = {i})
    (hg : s.generations[i]? = some g) :
    s.merge = some ([⟨i, g⟩],
      { s with killed := ∅, raised := ∅, alive := s.alive.erase i,
               generations := s.generations.set i g.die,
               cache := s.cache.extend [i] }) := by
  obtain ⟨gens, al, r, k, c, m⟩ := s
  dsimp only at hr hk hg ⊢
  subst hr
  subst hk
  simp only [Allocator.merge]
  rw [show ascList (∅ : Finset Nat) = [] from rfl, List.foldl_nil]
  rw [ascList_singleton]
  rw [List.foldlM_cons]
  have hstep : killedStep (([], (⟨gens, al, ∅, {i}, c, m⟩ : Allocator)) :
      List Entity × Allocator) i =
      some ([⟨i, g⟩], (⟨gens.set i g.die, al.erase i, ∅, {i}, c, m⟩ :
        Allocator)) := by
    simp [killedStep, hg]
  rw [hstep]
  rfl


/-- C4: from a quiescent allocator (`raised` and `killed` empty), after
`allocate` returns `e`, a successful `kill_atomic(e)` only adds `e.id` to
`killed` and `is_alive(e)` still reports `true`; the next `merge()` returns
exactly `[e]` as the deleted entities and afterwards `is_alive(e)` is
`false`; a further `kill_atomic` on the now-stale token returns
`WrongGeneration { action: "delete", actual_gen: e.gen.die, entity: e }`.
(The generation bounds keep `die` inside the `i32` range.) -/
theorem c4_kill_atomic_visible_until_merge (a : Allocator) (e : Entity) (b : Allocator)
    (hr : a.raised = ∅) (hk : a.killed = ∅)
    (halloc : a.allocate = some (e, b))
    (hpos : 0 < e.gen.val) (hlt : e.gen.val < 2 ^ 31) :
    b.kill_atomic e = some (.ok { b with killed := insert e.id b.killed }) ∧
    ({ b with killed := insert e.id b.killed } : Allocator).is_alive e = true ∧
    ({ b with killed := insert e.id b.killed } : Allocator).merge =
      some ([e], { b with
                     killed := ∅,
                     raised := ∅,
                     alive := b.alive.erase e.id,
                     generations := b.generations.set e.id e.gen.die,
                     cache := b.cache.extend [e.id] }) ∧
    ({ b with
         killed := ∅,
         raised := ∅,
         alive := b.alive.erase e.id,
         generations := b.generations.set e.id e.gen.die,
         cache := b.cache.extend [e.id] } : Allocator).is_alive e = false ∧
    e ∈ [e] ∧
    ({ b with
         killed := ∅,
         raised := ∅,
         alive := b.alive.erase e.id,
         generations := b.generations.set e.id e.gen.die,
         cache := b.cache.extend [e.id] } : Allocator).kill_atomic e =
      some (.error ⟨"delete", e.gen.die, e⟩) := by
  obtain ⟨hgen, hbr, hbk⟩ := allocate_gen_at halloc
  rw [hr] at hbr
  rw [hk] at hbk
  have hlen : e.id < b.generations.length := by
    by_contra hc
    rw [List.getElem?_eq_none_iff.mpr (by omega)] at hgen
    cases hgen
  have hset : (b.generations.set e.id e.gen.die)[e.id]? = some e.gen.die :=
    List.getElem?_set_eq_of_lt e.gen.die hlen
  have hdie : e.gen.die = ⟨-e.gen.val⟩ := by
    unfold Generation.die
    rw [wrap32_eq_self (by omega) (by omega)]
  have halive : b.is_alive e = true := by
    simp [Allocator.is_alive, hgen, hbr]
  have hdead : ({ b with
      killed := ∅,
      raised := ∅,
      alive := b.alive.erase e.id,
      generations := b.generations.set e.id e.gen.die,
      cache := b.cache.extend [e.id] } : Allocator).is_alive e = false := by
    simp only [Allocator.is_alive, hset]
    rw [decide_eq_false_iff_not]
    simp only [Finset.not_mem_empty, and_false, if_false]
    rw [hdie]
    intro hcon
    have : e.gen.val = -e.gen.val := congrArg Generation.val hcon
    omega
  refine ⟨?_, ?_, ?_, hdead, List.mem_singleton.mpr rfl, ?_⟩
  · unfold Allocator.kill_atomic
    rw [if_neg (by simp [halive])]
  · simp [Allocator.is_alive, hgen, hbr]
  · rw [merge_single_killed ({ b with killed := insert e.id b.killed } :
        Allocator) e.id e.gen (show _ = ∅ from hbr) (by simp [hbk]) hgen]
  · unfold Allocator.kill_atomic
    rw [if_pos (by simp [hdead])]
    simp [Allocator.del_err, hset]

/-- C4 witness: the theorem at the fresh allocator's first entity. -/
theorem c4_kill_atomic_visible_until_merge_witness :
    (⟨[⟨1⟩], {0}, ∅, ∅, ⟨[], 0⟩, 1⟩ : Allocator).kill_atomic ⟨0, ⟨1⟩⟩ =
      some (.ok (⟨[⟨1⟩], {0}, ∅, {0}, ⟨[], 0⟩, 1⟩ : Allocator)) ∧
    (⟨[⟨1⟩], {0}, ∅, {0}, ⟨[], 0⟩, 1⟩ : Allocator).is_alive ⟨0, ⟨1⟩⟩ = true ∧
    (⟨[⟨1⟩], {0}, ∅, {0}, ⟨[], 0⟩, 1⟩ : Allocator).merge =
      some ([⟨0, ⟨1⟩⟩], (⟨[⟨-1⟩], ∅, ∅, ∅, ⟨[0], 1⟩, 1⟩ : Allocator)) ∧
    (⟨[⟨-1⟩], ∅, ∅, ∅, ⟨[0], 1⟩, 1⟩ : Allocator).is_alive ⟨0, ⟨1⟩⟩ = false ∧
    (⟨0, ⟨1⟩⟩ : Entity) ∈ [(⟨0, ⟨1⟩⟩ : Entity)] ∧
    (⟨[⟨-1⟩], ∅, ∅, ∅, ⟨[0], 1⟩, 1⟩ : Allocator).kill_atomic ⟨0, ⟨1⟩⟩ =
      some (.error ⟨"delete", ⟨-1⟩, ⟨0, ⟨1⟩⟩⟩) :=
  c4_kill_atomic_visible_until_merge Allocator.default ⟨0, ⟨1⟩⟩
    (⟨[⟨1⟩], {0}, ∅, ∅, ⟨[], 0⟩, 1⟩ : Allocator) rfl rfl rfl
    (by decide) (by decide)

theorem mem_extend {c : EntityCache} {ids : List Nat} {i : Nat} :
    (c.extend ids).mem i ↔ c.mem i ∨ i ∈ ids := by
  show i ∈ (c.cache.take c.len ++ ids).take (c.cache.take c.len ++ ids).length ↔ _
  rw [List.take_length]
  exact List.mem_append

theorem extend_len (c : EntityCache) (ids : List Nat) :
    (c.extend ids).len = (c.extend ids).cache.length := rfl

theorem pop_mem {c : EntityCache} {id : Nat} {c' : EntityCache}
    (h : c.pop_atomic = some (id, c')) (hinv : c.len ≤ c.cache.length) :
    c'.len ≤ c'.cache.length ∧
    ∀ i, c.mem i → c'.mem i ∨ i = id := by
  unfold EntityCache.pop_atomic at h
  by_cases hl : c.len = 0
  · rw [if_pos hl] at h
    cases h
  · rw [if_neg hl] at h
    simp only [Option.some.injEq, Prod.mk.injEq] at h
    obtain ⟨hid, hc⟩ := h
    subst hid
    subst hc
    constructor
    · simp only []
      omega
    · intro i hi
      unfold EntityCache.mem at hi ⊢
      simp only [] at hi ⊢
      obtain ⟨k, hk, rfl⟩ : ∃ k, c.len - 1 + 1 = k ∧ k = c.len := ⟨c.len, by omega, rfl⟩
      rw [show c.len = c.len - 1 + 1 from by omega, List.take_succ] at hi
      rcases List.mem_append.mp hi with h1 | h1
      · exact Or.inl h1
      · right
        have hlt : c.len - 1 < c.cache.length := by omega
        rw [List.getElem?_eq_getElem hlt] at h1
        simp only [Option.toList_some, List.mem_singleton] at h1
        rw [h1, List.getD_eq_getElem?_getD, List.getElem?_eq_getElem hlt]
        rfl

theorem killLoopOk (es : List Entity) :
    ∀ a b : Allocator, a.killLoop es = some (.ok b) →
    b.cache = a.cache ∧ b.max_id = a.max_id ∧ b.killed = a.killed ∧
    (∀ i, i ∈ a.alive → i ∈ b.alive ∨ i ∈ es.map Entity.id) ∧
    (∀ i, i ∈ a.raised → i ∈ b.raised ∨ i ∈ es.map Entity.id) := by
  induction es with
  | nil =>
    intro a b h
    unfold Allocator.killLoop at h
    simp only [Option.some.injEq, Except.ok.injEq] at h
    subst h
    exact ⟨rfl, rfl, rfl, fun i hi => Or.inl hi, fun i hi => Or.inl hi⟩
  | cons e rest ih =>
    intro a b h
    unfold Allocator.killLoop at h
    by_cases halive : a.is_alive e
    · rw [if_neg (by simp [halive])] at h
      obtain ⟨hc, hm, hk, hal, hra⟩ := ih _ _ h
      refine ⟨hc, hm, hk, ?_, ?_⟩
      · intro i hi
        by_cases hie : i = e.id
        · exact Or.inr (by simp [hie])
        · rcases hal i (by simp only []; exact Finset.mem_erase.mpr ⟨hie, hi⟩)
            with h1 | h1
          · exact Or.inl h1
          · exact Or.inr (by simp [h1])
      · intro i hi
        by_cases hie : i = e.id
        · exact Or.inr (by simp [hie])
        · rcases hra i (by simp only []; exact Finset.mem_erase.mpr ⟨hie, hi⟩)
            with h1 | h1
          · exact Or.inl h1
          · exact Or.inr (by simp [h1])
    · rw [if_pos (by simp [halive])] at h
      cases hde : a.generations[e.id]? with
      | none => simp [Allocator.del_err, hde] at h
      | some g => simp [Allocator.del_err, hde] at h

theorem raisedFold (l : List Nat) :
    ∀ a : Allocator,
    (l.foldl raisedStep a).cache = a.cache ∧
    (l.foldl raisedStep a).max_id = a.max_id ∧
    (l.foldl raisedStep a).raised = a.raised ∧
    (l.foldl raisedStep a).killed = a.killed ∧
    (∀ i, i ∈ a.alive → i ∈ (l.foldl raisedStep a).alive) ∧
    (∀ i, i ∈ l → i ∈ (l.foldl raisedStep a).alive) := by
  induction l with
  | nil => exact fun a => ⟨rfl, rfl, rfl, rfl, fun i hi => hi, fun i hi => by cases hi⟩
  | cons j rest ih =>
    intro a
    rw [List.foldl_cons]
    obtain ⟨hc, hm, hr, hk, hal, hmem⟩ := ih (raisedStep a j)
    refine ⟨hc, hm, hr, hk, ?_, ?_⟩
    · intro i hi
      exact hal i (Finset.mem_insert_of_mem hi)
    · intro i hi
      rcases List.mem_cons.mp hi with h1 | h1
      · exact hal i (by rw [h1]; exact Finset.mem_insert_self j _)
      · exact hmem i h1

theorem killedFoldOk (l : List Nat) :
    ∀ (s : List Entity × Allocator) (d : List Entity) (b : Allocator),
    l.foldlM killedStep s = some (d, b) →
    b.cache = s.2.cache ∧ b.max_id = s.2.max_id ∧ b.raised = s.2.raised ∧
    b.killed = s.2.killed ∧
    (∀ i, i ∈ s.2.alive → i ∈ b.alive ∨ i ∈ l) ∧
    d.map Entity.id = s.1.map Entity.id ++ l := by
  induction l with
  | nil =>
    intro s d b h
    simp only [List.foldlM_nil, Option.pure_def, Option.some.injEq] at h
    obtain ⟨hd, hb⟩ : d = s.1 ∧ b = s.2 := by
      constructor
      · exact (Prod.mk.injEq _ _ _ _ ▸ h.symm).1
      · exact (Prod.mk.injEq _ _ _ _ ▸ h.symm).2
    subst hd
    subst hb
    exact ⟨rfl, rfl, rfl, rfl, fun i hi => Or.inl hi, by simp⟩
  | cons j rest ih =>
    intro s d b h
    rw [List.foldlM_cons] at h
    cases hj : s.2.generations[j]? with
    | none =>
      rw [show killedStep s j = none from by simp [killedStep, hj]] at h
      cases h
    | some g =>
      rw [show killedStep s j = some (s.1 ++ [⟨j, g⟩],
        { s.2 with alive := s.2.alive.erase j,
                   generations := s.2.generations.set j g.die })
        from by simp [killedStep, hj]] at h
      simp only [Option.bind_some] at h
      obtain ⟨hc, hm, hr, hk, hal, hd⟩ := ih _ _ _ h
      refine ⟨hc, hm, hr, hk, ?_, ?_⟩
      · intro i hi
        by_cases hij : i = j
        · exact Or.inr (by simp [hij])
        · rcases hal i (by simp only []; exact Finset.mem_erase.mpr ⟨hij, hi⟩)
            with h1 | h1
          · exact Or.inl h1
          · exact Or.inr (List.mem_cons_of_mem j h1)
      · rw [hd]
        simp

theorem reachableOk_allocInv {s : Allocator} (hs : ReachableOk s) : allocInv s := by
  induction hs with
  | init =>
    refine ⟨Nat.le_refl 0, ?_⟩
    intro i hi _
    rw [show Allocator.default.max_id = 0 from rfl] at hi
    exact absurd hi (Nat.not_lt_zero i)
  | alloc hr heq ih =>
    rename_i a e b
    unfold Allocator.allocate at heq
    cases hpop : a.cache.pop_atomic with
    | some p =>
      obtain ⟨id, c⟩ := p
      rw [hpop] at heq
      simp only [Option.some.injEq, Prod.mk.injEq] at heq
      obtain ⟨he, hb⟩ := heq
      subst hb
      obtain ⟨hpin, hpmem⟩ := pop_mem hpop ih.1
      refine ⟨hpin, ?_⟩
      intro i hi h32
      rcases ih.2 i hi h32 with h1 | h1 | h1
      · exact Or.inl (Finset.mem_insert_of_mem h1)
      · exact Or.inr (Or.inl h1)
      · rcases hpmem i h1 with h2 | h2
        · exact Or.inr (Or.inr h2)
        · exact Or.inl (by rw [h2]; exact Finset.mem_insert_self id _)
    | none =>
      rw [hpop] at heq
      by_cases hmax : a.max_id % 2 ^ 32 = 2 ^ 32 - 1
      · rw [if_pos hmax] at heq
        cases heq
      · rw [if_neg hmax] at heq
        simp only [Option.some.injEq, Prod.mk.injEq] at heq
        obtain ⟨he, hb⟩ := heq
        subst hb
        refine ⟨ih.1, ?_⟩
        intro i hi h32
        have hi' : i < a.max_id + 1 := hi
        by_cases hieq : i < a.max_id
        · rcases ih.2 i hieq h32 with h1 | h1 | h1
          · exact Or.inl (Finset.mem_insert_of_mem h1)
          · exact Or.inr (Or.inl h1)
          · exact Or.inr (Or.inr h1)
        · have him : i = a.max_id := by omega
          have hmod : a.max_id % 2 ^ 32 = i := by
            rw [← him]
            exact Nat.mod_eq_of_lt (by omega)
          exact Or.inl (by rw [← hmod]; exact Finset.mem_insert_self _ _)
  | allocAtomic hr heq ih =>
    rename_i a e b
    unfold Allocator.allocate_atomic at heq
    cases hpop : a.cache.pop_atomic with
    | some p =>
      obtain ⟨id, c⟩ := p
      rw [hpop] at heq
      simp only [Option.some.injEq, Prod.mk.injEq] at heq
      obtain ⟨he, hb⟩ := heq
      subst hb
      obtain ⟨hpin, hpmem⟩ := pop_mem hpop ih.1
      refine ⟨hpin, ?_⟩
      intro i hi h32
      rcases ih.2 i hi h32 with h1 | h1 | h1
      · exact Or.inl h1
      · exact Or.inr (Or.inl (Finset.mem_insert_of_mem h1))
      · rcases hpmem i h1 with h2 | h2
        · exact Or.inr (Or.inr h2)
        · exact Or.inr (Or.inl (by rw [h2]; exact Finset.mem_insert_self id _))
    | none =>
      rw [hpop] at heq
      by_cases hmax : a.max_id = 2 ^ 64 - 1
      · rw [if_pos hmax] at heq
        cases heq
      · rw [if_neg hmax] at heq
        simp only [Option.some.injEq, Prod.mk.injEq] at heq
        obtain ⟨he, hb⟩ := heq
        subst hb
        refine ⟨ih.1, ?_⟩
        intro i hi h32
        have hi' : i < a.max_id + 1 := hi
        by_cases hieq : i < a.max_id
        · rcases ih.2 i hieq h32 with h1 | h1 | h1
          · exact Or.inl h1
          · exact Or.inr (Or.inl (Finset.mem_insert_of_mem h1))
          · exact Or.inr (Or.inr h1)
        · have him : i = a.max_id := by omega
          have hmod : a.max_id % 2 ^ 32 = i := by
            rw [← him]
            exact Nat.mod_eq_of_lt (by omega)
          exact Or.inr (Or.inl (by rw [← hmod]; exact Finset.mem_insert_self _ _))
  | killStep hr heq ih =>
    rename_i a es b
    unfold Allocator.kill at heq
    cases hloop : a.killLoop es with
    | none =>
      rw [hloop] at heq
      cases heq
    | some r =>
      rw [hloop] at heq
      cases r with
      | error wa => simp at heq
      | ok b0 =>
        simp only [Option.some.injEq] at heq
        have hb : b = { b0 with cache := b0.cache.extend (es.map Entity.id) } := by
          cases heq' : heq
          rfl
        subst hb
        obtain ⟨hc, hm, hk, hal, hra⟩ := killLoopOk es a b0 hloop
        refine ⟨le_of_eq (extend_len _ _), ?_⟩
        intro i hi h32
        have hi' : i < a.max_id := by rw [← hm]; exact hi
        rcases ih.2 i hi' h32 with h1 | h1 | h1
        · rcases hal i h1 with h2 | h2
          · exact Or.inl h2
          · exact Or.inr (Or.inr (mem_extend.mpr (Or.inr h2)))
        · rcases hra i h1 with h2 | h2
          · exact Or.inr (Or.inl h2)
          · exact Or.inr (Or.inr (mem_extend.mpr (Or.inr h2)))
        · refine Or.inr (Or.inr (mem_extend.mpr (Or.inl ?_)))
          rw [hc]
          exact h1
  | killAtomicStep hr heq ih =>
    rename_i a e b
    unfold Allocator.kill_atomic at heq
    by_cases halive : a.is_alive e
    · rw [if_neg (by simp [halive])] at heq
      simp only [Option.some.injEq, Except.ok.injEq] at heq
      subst heq
      refine ⟨ih.1, ?_⟩
      intro i hi h32
      rcases ih.2 i hi h32 with h1 | h1 | h1
      · exact Or.inl h1
      · exact Or.inr (Or.inl h1)
      · exact Or.inr (Or.inr h1)
    · rw [if_pos (by simp [halive])] at heq
      cases hde : a.generations[e.id]? with
      | none => simp [Allocator.del_err, hde] at heq
      | some g => simp [Allocator.del_err, hde] at heq
  | mergeStep hr heq ih =>
    rename_i a d b
    simp only [Allocator.merge] at heq
    split at heq
    · cases heq
    · rename_i deleted a3 hfold
      simp only [Option.some.injEq, Prod.mk.injEq] at heq
      obtain ⟨hd0, hb⟩ := heq
      subst hd0
      subst hb
      obtain ⟨hc1, hm1, hr1, hk1, hal1, hmem1⟩ := raisedFold (ascList a.raised) a
      obtain ⟨hc2, hm2, hr2, hk2, hal2, hd2⟩ :=
        killedFoldOk _ _ _ _ hfold
      refine ⟨le_of_eq (extend_len _ _), ?_⟩
      intro i hi h32
      have hi' : i < a.max_id := by
        rw [← hm1, ← hm2]
        exact hi
      have hcov := ih.2 i hi' h32
      have hinalive : ∀ j, j ∈ ((ascList a.raised).foldl raisedStep a).alive →
          j ∈ a3.alive ∨ j ∈ deleted.map Entity.id := by
        intro j hj
        rcases hal2 j hj with h2 | h2
        · exact Or.inl h2
        · right
          rw [hd2]
          simpa using h2
      rcases hcov with h1 | h1 | h1
      · rcases hinalive i (hal1 i h1) with h2 | h2
        · exact Or.inl h2
        · exact Or.inr (Or.inr (mem_extend.mpr (Or.inr h2)))
      · rcases hinalive i (hmem1 i (mem_ascList.mpr h1)) with h2 | h2
        · exact Or.inl h2
        · exact Or.inr (Or.inr (mem_extend.mpr (Or.inr h2)))
      · refine Or.inr (Or.inr (mem_extend.mpr (Or.inl ?_)))
        rw [hc2, hc1]
        exact h1

/-- C6 amended: in every state reachable through `allocate`,
`allocate_atomic`, successful `kill`, successful `kill_atomic` and completed
`merge`, every index `i < max_id` that fits in 32 bits is in `alive`, in
`raised`, or present in the free cache. (A `kill` call that returns an error
breaks this, as does index truncation once `max_id` exceeds `2 ^ 32`.) -/
theorem c6_cover_invariant (s : Allocator) (hs : ReachableOk s) :
    ∀ i, i < s.max_id → i < 2 ^ 32 →
      i ∈ s.alive ∨ i ∈ s.raised ∨ s.cache.mem i :=
  fun i hi h32 => (reachableOk_allocInv hs).2 i hi h32

/-- C6 witness: the invariant at index 0 of the state reached by one
`allocate` from the fresh allocator. -/
theorem c6_cover_invariant_witness :
    (0 : Nat) ∈ (⟨[⟨1⟩], {0}, ∅, ∅, ⟨[], 0⟩, 1⟩ : Allocator).alive ∨
    (0 : Nat) ∈ (⟨[⟨1⟩], {0}, ∅, ∅, ⟨[], 0⟩, 1⟩ : Allocator).raised ∨
    (⟨[⟨1⟩], {0}, ∅, ∅, ⟨[], 0⟩, 1⟩ : Allocator).cache.mem 0 :=
  c6_cover_invariant (⟨[⟨1⟩], {0}, ∅, ∅, ⟨[], 0⟩, 1⟩ : Allocator)
    (ReachableOk.alloc (e := ⟨0, ⟨1⟩⟩) ReachableOk.init rfl) 0 (by decide) (by decide)

theorem sortKey_ne_of_lt {α : Type} {x y : SystemInfo α}
    (h : sortKey y < sortKey x) : y.priority ≠ x.priority := by
  intro hp
  unfold sortKey at h
  rw [hp] at h
  omega

theorem mem_insertByKey {α : Type} {x y : SystemInfo α} {l : List (SystemInfo α)} :
    y ∈ insertByKey x l ↔ y = x ∨ y ∈ l := by
  induction l with
  | nil => simp [insertByKey]
  | cons z zs ih =>
    unfold insertByKey
    by_cases h : sortKey z < sortKey x
    · rw [if_pos h]
      simp only [List.mem_cons, ih]
      tauto
    · rw [if_neg h]
      simp only [List.mem_cons]

theorem pairwise_insertByKey {α : Type} {x : SystemInfo α} {l : List (SystemInfo α)}
    (hl : l.Pairwise (fun p q => sortKey p ≤ sortKey q)) :
    (insertByKey x l).Pairwise (fun p q => sortKey p ≤ sortKey q) := by
  induction l with
  | nil => simp [insertByKey]
  | cons y ys ih =>
    rw [List.pairwise_cons] at hl
    obtain ⟨hy, hys⟩ := hl
    unfold insertByKey
    by_cases h : sortKey y < sortKey x
    · rw [if_pos h, List.pairwise_cons]
      constructor
      · intro q hq
        rcases mem_insertByKey.mp hq with rfl | hq'
        · exact le_of_lt h
        · exact hy q hq'
      · exact ih hys
    · rw [if_neg h, List.pairwise_cons]
      push_neg at h
      constructor
      · intro q hq
        rcases List.mem_cons.mp hq with rfl | hq'
        · exact h
        · exact le_trans h (hy q hq')
      · exact List.pairwise_cons.mpr ⟨hy, hys⟩

theorem dispatchOrder_pairwise {α : Type} (l : List (SystemInfo α)) :
    (dispatchOrder l).Pairwise (fun p q => sortKey p ≤ sortKey q) := by
  induction l with
  | nil => simp [dispatchOrder]
  | cons x xs ih => exact pairwise_insertByKey ih

theorem mem_dispatchOrder {α : Type} {x : SystemInfo α} {l : List (SystemInfo α)} :
    x ∈ dispatchOrder l ↔ x ∈ l := by
  induction l with
  | nil => simp [dispatchOrder]
  | cons y ys ih =>
    unfold dispatchOrder
    rw [mem_insertByKey, List.mem_cons, ih]

theorem filter_insertByKey {α : Type} (p : Int) (x : SystemInfo α)
    (l : List (SystemInfo α)) :
    (insertByKey x l).filter (fun s => decide (s.priority = p)) =
      (if x.priority = p then [x] else []) ++
        l.filter (fun s => decide (s.priority = p)) := by
  induction l with
  | nil =>
    unfold insertByKey
    by_cases hx : x.priority = p <;> simp [hx]
  | cons y ys ih =>
    unfold insertByKey
    by_cases h : sortKey y < sortKey x
    · rw [if_pos h]
      have hyx : y.priority ≠ x.priority := sortKey_ne_of_lt h
      by_cases hx : x.priority = p
      · have hy : ¬(y.priority = p) := fun hyp => hyx (hyp.trans hx.symm)
        simp [List.filter_cons, hy, hx, ih]
      · simp [List.filter_cons, hx, ih]
    · rw [if_neg h]
      by_cases hx : x.priority = p <;> simp [List.filter_cons, hx]
  
theorem dispatchOrder_filter {α : Type} (p : Int) (l : List (SystemInfo α)) :
    (dispatchOrder l).filter (fun s => decide (s.priority = p)) =
      l.filter (fun s => decide (s.priority = p)) := by
  induction l with
  | nil => rfl
  | cons x xs ih =>
    unfold dispatchOrder
    rw [filter_insertByKey, ih, List.filter_cons]
    by_cases hx : x.priority = p <;> simp [hx]

/-- C9 amended: for systems whose `i32` priorities avoid `i32::MIN` (whose
negation overflows), `dispatch` spawns in descending priority order — every
later-spawned system has priority at most every earlier one — and systems of
equal priority `p` keep their registration order; with priorities 10, 0, 5
the spawn order is 10, 5, 0. -/
theorem c9_dispatch_descending_stable {α : Type} (l : List (SystemInfo α)) (p : Int)
    (hb : ∀ s ∈ l, -(2 ^ 31) < s.priority ∧ s.priority < 2 ^ 31) :
    (dispatchOrder l).Pairwise (fun x y => y.priority ≤ x.priority) ∧
    (dispatchOrder l).filter (fun s => decide (s.priority = p)) =
      l.filter (fun s => decide (s.priority = p)) ∧
    (dispatchOrder [(⟨"A", 10, ()⟩ : SystemInfo Unit), ⟨"B", 0, ()⟩,
      ⟨"C", 5, ()⟩]).map SystemInfo.name = ["A", "C", "B"] := by
  refine ⟨?_, dispatchOrder_filter p l, by decide⟩
  refine List.Pairwise.imp_of_mem ?_ (dispatchOrder_pairwise l)
  intro x y hx hy hkey
  obtain ⟨hx1, hx2⟩ := hb x (mem_dispatchOrder.mp hx)
  obtain ⟨hy1, hy2⟩ := hb y (mem_dispatchOrder.mp hy)
  unfold sortKey at hkey
  rw [wrap32_eq_self (by omega) (by omega),
    wrap32_eq_self (by omega) (by omega)] at hkey
  omega

/-- C9 counterexample: a system with priority `i32::MIN = -2^31` is spawned
before a priority-0 system, because its sort key `-priority` wraps back to
`i32::MIN`, the smallest key — dispatch order is not descending for
arbitrary `i32` priorities. -/
theorem c9_min_priority_first :
    (dispatchOrder [(⟨"A", -(2 ^ 31), ()⟩ : SystemInfo Unit),
      ⟨"B", 0, ()⟩]).map SystemInfo.name = ["A", "B"] ∧
    ((-(2 ^ 31) : Int) < 0) := by
  constructor
  · decide
  · decide

/-- C9 witness: the amended theorem at the three-system example with
priorities 10, 0, 5 and equal-priority class `p = 5`. -/
theorem c9_dispatch_descending_stable_witness :
    (dispatchOrder [(⟨"A", 10, ()⟩ : SystemInfo Unit), ⟨"B", 0, ()⟩,
      ⟨"C", 5, ()⟩]).Pairwise (fun x y => y.priority ≤ x.priority) ∧
    (dispatchOrder [(⟨"A", 10, ()⟩ : SystemInfo Unit), ⟨"B", 0, ()⟩,
      ⟨"C", 5, ()⟩]).filter (fun s => decide (s.priority = 5)) =
      [(⟨"A", 10, ()⟩ : SystemInfo Unit), ⟨"B", 0, ()⟩,
        ⟨"C", 5, ()⟩].filter (fun s => decide (s.priority = 5)) ∧
    (dispatchOrder [(⟨"A", 10, ()⟩ : SystemInfo Unit), ⟨"B", 0, ()⟩,
      ⟨"C", 5, ()⟩]).map SystemInfo.name = ["A", "C", "B"] :=
  c9_dispatch_descending_stable
    [(⟨"A", 10, ()⟩ : SystemInfo Unit), ⟨"B", 0, ()⟩, ⟨"C", 5, ()⟩] 5
    (by decide)
